import Mathlib

/-
Shallow embedding of the variable-resolution engine of src/lib/tools.ts
(function resolveVariables and the constant envDelimiter).

Strings are modelled as List Char.  The regex
  dollar-brace ((env|config|workspaceFolder|file|fileDirname|fileBasenameNoExtension)(dot-or-colon))? lazy-name brace
is modelled by an explicit scanner (tryMatchAt) with the same ordered
alternation, separator requirement and lazy name (any non line-terminator
characters up to the first closing brace).  JavaScript machine effects are
made explicit:
  - assert.fail on the dispatch default becomes Fail.assertFail;
  - reading property uri of undefined (first element of an empty
    workspaceFolders array) becomes Fail.typeError;
  - the while loop guarded by the cycle cache is given explicit fuel, since
    the source loop can genuinely diverge; fuel exhaustion is Option.none.
-/

/-- Kind tokens recognised by the placeholder grammar (regex group 2). -/
inductive VarType where
  | env
  | config
  | workspaceFolder
  | file
  | fileDirname
  | fileBasenameNoExtension
deriving DecidableEq

/-- A value of the additionalEnvironment overlay: a plain string or an array
of strings, mirroring the TypeScript union string | string[]. -/
inductive EnvVal where
  | str (v : List Char)
  | arr (vs : List (List Char))
deriving DecidableEq

/-- Runtime failures resolveVariables can raise: the assert.fail call on the
dispatch default, and the TypeError from reading uri of undefined. -/
inductive Fail where
  | assertFail
  | typeError
deriving DecidableEq

/-- The read-only collaborators of one resolveVariables call: the overlay
argument, process.env, the workspace configuration, workspaceFolders
(undefined is none; an array, possibly empty, is some), os.homedir() and
the platform test of process.platform. -/
structure ResolveState where
  overlay : Option (List (List Char × EnvVal))
  procEnv : List Char → Option (List Char)
  config : List Char → Option (List Char)
  workspaceFolders : Option (List (List Char × List Char))
  home : List Char
  isWindows : Bool

/-- envDelimiter from tools.ts: semicolon on win32, colon otherwise. -/
def envDelimiter (isWindows : Bool) : Char :=
  if isWindows then ';' else ':'

/-- The character list of each kind token, as written in the regex. -/
def kindToken : VarType → List Char
  | VarType.env => ['e', 'n', 'v']
  | VarType.config => ['c', 'o', 'n', 'f', 'i', 'g']
  | VarType.workspaceFolder =>
      ['w', 'o', 'r', 'k', 's', 'p', 'a', 'c', 'e', 'F', 'o', 'l', 'd', 'e', 'r']
  | VarType.file => ['f', 'i', 'l', 'e']
  | VarType.fileDirname =>
      ['f', 'i', 'l', 'e', 'D', 'i', 'r', 'n', 'a', 'm', 'e']
  | VarType.fileBasenameNoExtension =>
      ['f', 'i', 'l', 'e', 'B', 'a', 's', 'e', 'n', 'a', 'm', 'e', 'N', 'o',
       'E', 'x', 't', 'e', 'n', 's', 'i', 'o', 'n']

/-- Strip a literal prefix from a character list (regex literal matching). -/
def stripPrefixL : List Char → List Char → Option (List Char)
  | [], s => some s
  | _ :: _, [] => none
  | p :: pr, c :: cr => if p = c then stripPrefixL pr cr else none

/-- The separator group of the regex: one dot or colon. -/
def trySep : List Char → Option (Char × List Char)
  | [] => none
  | c :: r => if c = '.' ∨ c = ':' then some (c, r) else none

/-- Try one alternative of the kind group: its token followed by a separator. -/
def tryKind (vt : VarType) (s : List Char) : Option (VarType × Char × List Char) :=
  match stripPrefixL (kindToken vt) s with
  | some r =>
    match trySep r with
    | some (sep, r2) => some (vt, sep, r2)
    | none => none
  | none => none

/-- The ordered alternation of the kind group, exactly in regex order. -/
def stripKind (s : List Char) : Option (VarType × Char × List Char) :=
  match tryKind VarType.env s with
  | some r => some r
  | none =>
    match tryKind VarType.config s with
    | some r => some r
    | none =>
      match tryKind VarType.workspaceFolder s with
      | some r => some r
      | none =>
        match tryKind VarType.file s with
        | some r => some r
        | none =>
          match tryKind VarType.fileDirname s with
          | some r => some r
          | none => tryKind VarType.fileBasenameNoExtension s

/-- JavaScript line terminators, which the dot of a regex does not match. -/
def lineTerm (c : Char) : Bool :=
  c = '\n' || c = '\r' || c = Char.ofNat 8232 || c = Char.ofNat 8233

/-- The lazy name group followed by the closing brace: the shortest run of
non line-terminator characters up to the first closing brace.  Returns the
name and the text after the brace. -/
def lazyName : List Char → Option (List Char × List Char)
  | [] => none
  | c :: r =>
    if c = '\x7d' then some ([], r)
    else if lineTerm c then none
    else
      match lazyName r with
      | some (n, r2) => some (c :: n, r2)
      | none => none

/-- One parsed placeholder reference: regex group 2 (absent for an
unqualified reference), group 4, the whole matched text, and the input
remaining after the match. -/
structure PMatch where
  varType : Option VarType
  name : List Char
  raw : List Char
  rest : List Char
deriving DecidableEq

/-- Attempt the regex at the head of the text, with the backtracking order of
the engine: the optional kind group is tried first; if its body cannot
complete a match the group is retried as absent. -/
def tryMatchAt (s : List Char) : Option PMatch :=
  match s with
  | c :: c2 :: t =>
    if c = '$' ∧ c2 = '\x7b' then
      match stripKind t with
      | some (vt, sep, t2) =>
        (match lazyName t2 with
         | some (nm, r) =>
             some ⟨some vt, nm,
                   '$' :: '\x7b' :: (kindToken vt ++ sep :: (nm ++ ['\x7d'])), r⟩
         | none =>
             match lazyName t with
             | some (nm, r) => some ⟨none, nm, '$' :: '\x7b' :: (nm ++ ['\x7d']), r⟩
             | none => none)
      | none =>
        match lazyName t with
        | some (nm, r) => some ⟨none, nm, '$' :: '\x7b' :: (nm ++ ['\x7d']), r⟩
        | none => none
    else none
  | _ => none

/-- Array.prototype.join with a one-character delimiter. -/
def joinWith (d : Char) : List (List Char) → List Char
  | [] => []
  | [v] => v
  | v :: w :: r => v ++ d :: joinWith d (w :: r)

/-- Look a name up in the overlay association object (exact key equality,
like a JavaScript property access). -/
def alookup : List (List Char × EnvVal) → List Char → Option EnvVal
  | [], _ => none
  | (k, v) :: r, n => if k = n then some v else alookup r n

/-- additionalEnvironment[name], none when the overlay argument is absent. -/
def overlayFind (st : ResolveState) (n : List Char) : Option EnvVal :=
  match st.overlay with
  | some ov => alookup ov n
  | none => none

/-- The env case of the dispatch: overlay string wins; an overlay array is
joined with envDelimiter only when the whole original input equals the raw
match; otherwise fall back to process.env. -/
def lookupEnv (st : ResolveState) (inp raw n : List Char) : Option (List Char) :=
  let nv : Option (List Char) :=
    match overlayFind st n with
    | some (EnvVal.str v) => some v
    | some (EnvVal.arr vs) =>
        if inp = raw then some (joinWith (envDelimiter st.isWindows) vs) else none
    | none => none
  match nv with
  | some v => some v
  | none => st.procEnv n

/-- toLocaleLowerCase comparison used for workspace folder names. -/
def lowerEq (a b : List Char) : Bool :=
  a.map Char.toLower == b.map Char.toLower

/-- The workspaceFolder case of the dispatch.  Guard: name truthy and
workspaceFolders not undefined (an empty array is truthy).  A found folder
gives its path, otherwise the first folder of the array; taking the first
element of an empty array yields undefined and reading its uri throws. -/
def lookupFolder (st : ResolveState) (n : List Char) :
    Except Fail (Option (List Char)) :=
  if n = [] then Except.ok none
  else
    match st.workspaceFolders with
    | none => Except.ok none
    | some l =>
      match l.find? (fun f => lowerEq f.1 n) with
      | some f => Except.ok (some f.2)
      | none =>
        match l with
        | [] => Except.error Fail.typeError
        | f :: _ => Except.ok (some f.2)

/-- The per-kind dispatch of the replacement callback.  An absent kind is
rewritten to workspaceFolder first; the remaining kinds (file, fileDirname,
fileBasenameNoExtension) reach the default branch and assert.fail. -/
def lookupValue (st : ResolveState) (inp : List Char) (m : PMatch) :
    Except Fail (Option (List Char)) :=
  match m.varType.getD VarType.workspaceFolder with
  | VarType.env => Except.ok (lookupEnv st inp m.raw m.name)
  | VarType.config => Except.ok (st.config m.name)
  | VarType.workspaceFolder => lookupFolder st m.name
  | _ => Except.error Fail.assertFail

/-- The value a match is replaced with: the looked-up value, or the raw
match text when the lookup yielded no value. -/
def resolveMatch (st : ResolveState) (inp : List Char) (m : PMatch) :
    Except Fail (List Char) :=
  match lookupValue st inp m with
  | Except.ok (some v) => Except.ok v
  | Except.ok none => Except.ok m.raw
  | Except.error e => Except.error e

/-- The left-to-right global scan of String.replace: at each position try the
regex; on a match emit the replacement and continue after the match,
otherwise emit the character and move one position right.  The fuel only
pads structural recursion; replacePass supplies the text length, which a
scan never exhausts since every step consumes at least one character. -/
def replaceAux (st : ResolveState) (inp : List Char) : Nat → List Char → Except Fail (List Char)
  | 0, s => Except.ok s
  | _ + 1, [] => Except.ok []
  | n + 1, c :: r =>
    match tryMatchAt (c :: r) with
    | some m =>
      match resolveMatch st inp m with
      | Except.ok v =>
        match replaceAux st inp n m.rest with
        | Except.ok t => Except.ok (v ++ t)
        | Except.error e => Except.error e
      | Except.error e => Except.error e
    | none =>
      match replaceAux st inp n r with
      | Except.ok t => Except.ok (c :: t)
      | Except.error e => Except.error e

/-- One full pass of ret.replace(regexp, callback). -/
def replacePass (st : ResolveState) (inp s : List Char) : Except Fail (List Char) :=
  replaceAux st inp s.length s

/-- The cycle-cache loop: while the current string is not in the cache, add
it and run one replacement pass.  The source loop has no fuel; none models
a run that has not terminated within the given fuel. -/
def resolveLoop (st : ResolveState) (inp : List Char) :
    Nat → List (List Char) → List Char → Option (Except Fail (List Char))
  | 0, _, _ => none
  | n + 1, cache, ret =>
    if ret ∈ cache then some (Except.ok ret)
    else
      match replacePass st inp ret with
      | Except.ok ret2 => resolveLoop st inp n (ret :: cache) ret2
      | Except.error e => some (Except.error e)

/-- The final pass: replace a tilde at position zero with os.homedir(). -/
def homeSub (st : ResolveState) (s : List Char) : List Char :=
  match s with
  | [] => []
  | c :: r => if c = '~' then st.home ++ r else c :: r

/-- resolveVariables from tools.ts.  The input is Option (absent maps to the
empty result immediately), the overlay and all collaborators live in st,
and the loop is run on the given fuel. -/
def resolveVariables (st : ResolveState) (input : Option (List Char)) (fuel : Nat) :
    Option (Except Fail (List Char)) :=
  match input with
  | none => some (Except.ok [])
  | some s =>
    if s = [] then some (Except.ok [])
    else
      match resolveLoop st s fuel [] s with
      | some (Except.ok r) => some (Except.ok (homeSub st r))
      | some (Except.error e) => some (Except.error e)
      | none => none

/-- Is a lookup outcome the benign no-value case. -/
def isOkNone : Except Fail (Option (List Char)) → Bool
  | Except.ok none => true
  | _ => false

/-- Scan-structured check that every placeholder found in a pass over s has
a lookup that yields no value (used to state the untouched-output claim). -/
def allUnresolvedAux (st : ResolveState) (inp : List Char) : Nat → List Char → Bool
  | 0, _ => true
  | _ + 1, [] => true
  | n + 1, c :: r =>
    match tryMatchAt (c :: r) with
    | some m => isOkNone (lookupValue st inp m) && allUnresolvedAux st inp n m.rest
    | none => allUnresolvedAux st inp n r

/-- Every placeholder a pass over s finds is unresolved. -/
def allUnresolved (st : ResolveState) (inp s : List Char) : Bool :=
  allUnresolvedAux st inp s.length s

/-- Number of dollar signs in a string. -/
def dollars (s : List Char) : Nat := s.count '$'

/-- Every value the overlay and the providers can supply is free of dollar
signs (the hypothesis of the amended termination claim). -/
structure DollarFree (st : ResolveState) : Prop where
  ovStr : ∀ n v, overlayFind st n = some (EnvVal.str v) → '$' ∉ v
  ovArr : ∀ n vs, overlayFind st n = some (EnvVal.arr vs) → ∀ v ∈ vs, '$' ∉ v
  env : ∀ n v, st.procEnv n = some v → '$' ∉ v
  cfg : ∀ n v, st.config n = some v → '$' ∉ v
  ws : ∀ l, st.workspaceFolders = some l → ∀ f ∈ l, '$' ∉ f.2

/- Concrete states and inputs used by the claims. -/

/-- A state with nothing available: no overlay, empty environment and
configuration, workspaceFolders undefined. -/
def st0 : ResolveState where
  overlay := none
  procEnv := fun _ => none
  config := fun _ => none
  workspaceFolders := none
  home := []
  isWindows := false

/-- A state whose workspaceFolders list is present but empty. -/
def stEmptyRoots : ResolveState where
  overlay := none
  procEnv := fun _ => none
  config := fun _ => none
  workspaceFolders := some []
  home := []
  isWindows := false

/-- A state with one workspace root named proj at path /a. -/
def stProj : ResolveState where
  overlay := none
  procEnv := fun _ => none
  config := fun _ => none
  workspaceFolders := some [(['p', 'r', 'o', 'j'], ['/', 'a'])]
  home := []
  isWindows := false

/-- Workspace roots foo at /a and bar at /b. -/
def stFooBar : ResolveState where
  overlay := none
  procEnv := fun _ => none
  config := fun _ => none
  workspaceFolders := some [(['f', 'o', 'o'], ['/', 'a']), (['b', 'a', 'r'], ['/', 'b'])]
  home := []
  isWindows := false

/-- A single workspace root bar at /b. -/
def stBar : ResolveState where
  overlay := none
  procEnv := fun _ => none
  config := fun _ => none
  workspaceFolders := some [(['b', 'a', 'r'], ['/', 'b'])]
  home := []
  isWindows := false

/-- The input dollar-brace file brace. -/
def fileS : List Char := ['$', '\x7b', 'f', 'i', 'l', 'e', '\x7d']

/-- The input dollar-brace file colon x brace. -/
def fileColonS : List Char := ['$', '\x7b', 'f', 'i', 'l', 'e', ':', 'x', '\x7d']

/-- The unqualified input dollar-brace foo brace. -/
def unqFoo : List Char := ['$', '\x7b', 'f', 'o', 'o', '\x7d']

/-- The unqualified input dollar-brace a brace. -/
def unqA : List Char := ['$', '\x7b', 'a', '\x7d']

/-- The input dollar-brace env colon A brace. -/
def sEnvA : List Char := ['$', '\x7b', 'e', 'n', 'v', ':', 'A', '\x7d']

/-- The input dollar-brace env colon B brace. -/
def sEnvB : List Char := ['$', '\x7b', 'e', 'n', 'v', ':', 'B', '\x7d']

/-- The string x followed by the env A placeholder: a self-growing overlay value. -/
def xEnvA : List Char := 'x' :: sEnvA

/-- A state whose overlay maps A to a value that reintroduces the env A
placeholder prefixed with one more character each pass. -/
def stGrow : ResolveState where
  overlay := some [(['A'], EnvVal.str xEnvA)]
  procEnv := fun _ => none
  config := fun _ => none
  workspaceFolders := none
  home := []
  isWindows := false

/-- The k-th string of the diverging run: k copies of x before the env A
placeholder. -/
def iterS (k : Nat) : List Char := List.replicate k 'x' ++ sEnvA

/-- The parsed match of the env A placeholder standing alone. -/
def mEnvA : PMatch := ⟨some VarType.env, ['A'], sEnvA, []⟩

/-- Overlay mapping A to the env B placeholder (a string) and B to the
array of x and y. -/
def stChain : ResolveState where
  overlay := some [(['A'], EnvVal.str sEnvB), (['B'], EnvVal.arr [['x'], ['y']])]
  procEnv := fun _ => none
  config := fun _ => none
  workspaceFolders := none
  home := []
  isWindows := false

/-- Overlay with the plain string X mapped to 5 and the array P. -/
def stOv : ResolveState where
  overlay := some [(['X'], EnvVal.str ['5']), (['P'], EnvVal.arr [['a'], ['b']])]
  procEnv := fun _ => none
  config := fun _ => none
  workspaceFolders := none
  home := []
  isWindows := false

/-- The input tilde slash proj. -/
def tilProj : List Char := ['~', '/', 'p', 'r', 'o', 'j']

/-- The input a tilde slash proj. -/
def aTilProj : List Char := ['a', '~', '/', 'p', 'r', 'o', 'j']

deriving instance DecidableEq for Except

/- Structural lemmas about the scanner. -/

/-- A successful literal-prefix strip decomposes the text. -/
theorem stripPrefixL_split : ∀ (p s r : List Char), stripPrefixL p s = some r → s = p ++ r := by
  intro p
  induction p with
  | nil =>
    intro s r h
    simp only [stripPrefixL, Option.some.injEq] at h
    simp [h]
  | cons a pr ih =>
    intro s r h
    cases s with
    | nil => exact absurd h (by simp [stripPrefixL])
    | cons c cr =>
      by_cases hac : a = c
      · subst hac
        simp only [stripPrefixL, if_pos rfl] at h
        simp [ih cr r h]
      · simp [stripPrefixL, if_neg hac] at h

/-- A successful separator parse decomposes the text. -/
theorem trySep_split (s : List Char) (c : Char) (r : List Char)
    (h : trySep s = some (c, r)) : s = c :: r := by
  cases s with
  | nil => exact absurd h (by simp [trySep])
  | cons a t =>
    simp only [trySep] at h
    split at h
    · cases h
      rfl
    · exact absurd h (by simp)

/-- A successful kind alternative decomposes the text as its token plus a
separator. -/
theorem tryKind_split (vt : VarType) (s : List Char) (vt2 : VarType) (sep : Char)
    (r : List Char) (h : tryKind vt s = some (vt2, sep, r)) :
    vt2 = vt ∧ s = kindToken vt ++ sep :: r := by
  unfold tryKind at h
  split at h
  · rename_i r1 hp
    split at h
    · rename_i sep1 r2 hs
      cases h
      exact ⟨rfl, by rw [stripPrefixL_split _ _ _ hp, trySep_split _ _ _ hs]⟩
    · exact absurd h (by simp)
  · exact absurd h (by simp)

/-- A successful kind-group parse decomposes the text. -/
theorem stripKind_split (s : List Char) (vt : VarType) (sep : Char) (r : List Char)
    (h : stripKind s = some (vt, sep, r)) : s = kindToken vt ++ sep :: r := by
  have hex : ∃ vt0, tryKind vt0 s = some (vt, sep, r) := by
    unfold stripKind at h
    split at h
    · exact ⟨_, by rw [← h]; assumption⟩
    · split at h
      · exact ⟨_, by rw [← h]; assumption⟩
      · split at h
        · exact ⟨_, by rw [← h]; assumption⟩
        · split at h
          · exact ⟨_, by rw [← h]; assumption⟩
          · split at h
            · exact ⟨_, by rw [← h]; assumption⟩
            · exact ⟨_, h⟩
  obtain ⟨vt0, h0⟩ := hex
  obtain ⟨hvt, hs⟩ := tryKind_split vt0 s vt sep r h0
  rw [hvt]
  exact hs

/-- A successful lazy-name parse decomposes the text: the name, the closing
brace, the remainder. -/
theorem lazyName_split : ∀ (s n r : List Char), lazyName s = some (n, r) → s = n ++ '\x7d' :: r := by
  intro s
  induction s with
  | nil => intro n r h; exact absurd h (by simp [lazyName])
  | cons c t ih =>
    intro n r h
    simp only [lazyName] at h
    split at h
    · rename_i hc
      cases h
      simp [hc]
    · split at h
      · exact absurd h (by simp)
      · split at h
        · rename_i n1 r1 hl
          cases h
          have ht := ih _ _ hl
          simp [ht]
        · exact absurd h (by simp)

/-- A successful match splits the text into the raw match text followed by
the rest, and the raw text starts with the two placeholder delimiters. -/
theorem tryMatchAt_split (s : List Char) (m : PMatch) (h : tryMatchAt s = some m) :
    s = m.raw ++ m.rest ∧ ∃ t, m.raw = '$' :: '\x7b' :: t := by
  match s with
  | [] => exact absurd h (by simp [tryMatchAt])
  | [c] => exact absurd h (by simp [tryMatchAt])
  | c :: c2 :: t =>
    simp only [tryMatchAt] at h
    split at h
    · rename_i hcc
      obtain ⟨rfl, rfl⟩ := hcc
      split at h
      · rename_i vt sep t2 hk
        split at h
        · rename_i nm r hl
          cases h
          refine ⟨?_, _, rfl⟩
          rw [stripKind_split t vt sep t2 hk, lazyName_split t2 nm r hl]
          simp
        · split at h
          · rename_i nm r hl
            cases h
            refine ⟨?_, _, rfl⟩
            rw [lazyName_split t nm r hl]
            simp
          · exact absurd h (by simp)
      · split at h
        · rename_i nm r hl
          cases h
          refine ⟨?_, _, rfl⟩
          rw [lazyName_split t nm r hl]
          simp
        · exact absurd h (by simp)
    · exact absurd h (by simp)

/-- The scan of an empty text yields the empty text at any fuel. -/
theorem replaceAux_nil (st : ResolveState) (inp : List Char) :
    ∀ n, replaceAux st inp n [] = Except.ok [] := by
  intro n
  cases n <;> rfl

/-- A pass in which every found placeholder resolves to no value returns its
input unchanged and raises no failure. -/
theorem allUnres_pass (st : ResolveState) (inp : List Char) :
    ∀ n s, allUnresolvedAux st inp n s = true → replaceAux st inp n s = Except.ok s := by
  intro n
  induction n with
  | zero => intro s _; rfl
  | succ k ih =>
    intro s h
    cases s with
    | nil => rfl
    | cons c r =>
      cases htm : tryMatchAt (c :: r) with
      | none =>
        simp only [allUnresolvedAux, htm] at h
        simp only [replaceAux, htm, ih r h]
      | some m =>
        simp only [allUnresolvedAux, htm, Bool.and_eq_true] at h
        obtain ⟨h1, h2⟩ := h
        have hlv : lookupValue st inp m = Except.ok none := by
          cases hl : lookupValue st inp m with
          | ok o =>
            cases o with
            | none => rfl
            | some v => rw [hl] at h1; simp [isOkNone] at h1
          | error e => rw [hl] at h1; simp [isOkNone] at h1
        have hrm : resolveMatch st inp m = Except.ok m.raw := by
          simp [resolveMatch, hlv]
        simp only [replaceAux, htm, hrm, ih _ h2]
        obtain ⟨hsplit, -⟩ := tryMatchAt_split _ _ htm
        rw [← hsplit]

/-- Joining dollar-free strings with a non-dollar delimiter is dollar-free. -/
theorem joinWith_dollarFree (d : Char) (hd : d ≠ '$') :
    ∀ vs, (∀ v ∈ vs, '$' ∉ v) → '$' ∉ joinWith d vs := by
  intro vs
  induction vs with
  | nil => simp [joinWith]
  | cons v w ih =>
    cases w with
    | nil => intro h; simpa [joinWith] using h v (by simp)
    | cons w2 r =>
      intro h
      simp only [joinWith, List.mem_append, List.mem_cons, not_or]
      refine ⟨h v (by simp), fun he => hd he.symm, ?_⟩
      have := ih (fun u hu => h u (List.mem_cons_of_mem _ hu))
      simpa [joinWith] using this

/-- The platform delimiter is never a dollar sign. -/
theorem envDelimiter_ne_dollar (w : Bool) : envDelimiter w ≠ '$' := by
  cases w <;> simp [envDelimiter]

/-- Under dollar-free providers, a replacement value is either the raw match
text or dollar-free. -/
theorem resolveMatch_dollar (st : ResolveState) (hdf : DollarFree st) (inp : List Char)
    (m : PMatch) (v : List Char) (h : resolveMatch st inp m = Except.ok v) :
    v = m.raw ∨ '$' ∉ v := by
  unfold resolveMatch at h
  cases hlv : lookupValue st inp m with
  | error e => rw [hlv] at h; exact absurd h (by simp)
  | ok o =>
    rw [hlv] at h
    cases o with
    | none =>
      cases h
      exact Or.inl rfl
    | some u =>
      cases h
      right
      unfold lookupValue at hlv
      rcases hgd : m.varType.getD VarType.workspaceFolder with _ | _ | _ | _ | _ | _ <;>
        rw [hgd] at hlv <;> simp only [] at hlv
      · -- env
        simp only [Except.ok.injEq] at hlv
        unfold lookupEnv at hlv
        cases hov : overlayFind st m.name with
        | some ev =>
          cases ev with
          | str w =>
            simp only [hov] at hlv
            cases hlv
            exact hdf.ovStr _ _ hov
          | arr vs =>
            simp only [hov] at hlv
            split at hlv
            · rename_i r1 hif
              rw [Option.some.injEq] at hlv
              rw [← hlv]
              split at hif
              · rw [Option.some.injEq] at hif
                rw [← hif]
                exact joinWith_dollarFree (envDelimiter st.isWindows)
                  (envDelimiter_ne_dollar st.isWindows) vs (hdf.ovArr _ _ hov)
              · exact absurd hif (by simp)
            · exact hdf.env _ _ hlv
        | none =>
          simp only [hov] at hlv
          exact hdf.env _ _ hlv
      · -- config
        simp only [Except.ok.injEq] at hlv
        exact hdf.cfg _ _ hlv
      · -- workspaceFolder
        unfold lookupFolder at hlv
        split at hlv
        · exact absurd hlv (by simp)
        · cases hws : st.workspaceFolders with
          | none => rw [hws] at hlv; exact absurd hlv (by simp)
          | some l =>
            rw [hws] at hlv
            cases hf : l.find? (fun f => lowerEq f.1 m.name) with
            | some f =>
              simp only [hf] at hlv
              cases hlv
              exact hdf.ws l hws f (List.mem_of_find?_eq_some hf) 
            | none =>
              simp only [hf] at hlv
              cases l with
              | nil => exact absurd hlv (by simp)
              | cons f t =>
                simp only [] at hlv
                cases hlv
                exact hdf.ws _ hws f (by simp)
      · exact absurd hlv (by simp)
      · exact absurd hlv (by simp)
      · exact absurd hlv (by simp)

/-- Under dollar-free providers, one replacement pass either returns its
input unchanged or strictly decreases the number of dollar signs. -/
theorem pass_dollar (st : ResolveState) (hdf : DollarFree st) (inp : List Char) :
    ∀ n s r, replaceAux st inp n s = Except.ok r → r = s ∨ dollars r < dollars s := by
  intro n
  induction n with
  | zero =>
    intro s r h
    cases h
    exact Or.inl rfl
  | succ k ih =>
    intro s r h
    cases s with
    | nil =>
      cases h
      exact Or.inl rfl
    | cons c t =>
      cases htm : tryMatchAt (c :: t) with
      | none =>
        simp only [replaceAux, htm] at h
        cases hrec : replaceAux st inp k t with
        | error e => rw [hrec] at h; exact absurd h (by simp)
        | ok r1 =>
          rw [hrec] at h
          cases h
          rcases ih t r1 hrec with h1 | h1
          · exact Or.inl (by rw [h1])
          · right
            simp only [dollars, List.count_cons]
            exact Nat.add_lt_add_right h1 _
      | some m =>
        simp only [replaceAux, htm] at h
        cases hrm : resolveMatch st inp m with
        | error e => rw [hrm] at h; exact absurd h (by simp)
        | ok v =>
          rw [hrm] at h
          cases hrec : replaceAux st inp k m.rest with
          | error e => rw [hrec] at h; exact absurd h (by simp)
          | ok tr =>
            rw [hrec] at h
            cases h
            obtain ⟨hsplit, t0, hraw⟩ := tryMatchAt_split _ _ htm
            have hd1 : 1 ≤ dollars m.raw := by
              rw [hraw]
              simp [dollars, List.count_cons]
            have hsd : dollars (c :: t) = dollars m.raw + dollars m.rest := by
              rw [hsplit]
              simp [dollars, List.count_append]
            have happ : dollars (v ++ tr) = dollars v + dollars tr := by
              simp [dollars, List.count_append]
            rcases resolveMatch_dollar st hdf inp m v hrm with hv | hv
            · rcases ih _ _ hrec with h1 | h1
              · exact Or.inl (by rw [hv, h1, ← hsplit])
              · right
                subst hv
                omega
            · right
              have hv0 : dollars v = 0 := by
                rw [dollars, List.count_eq_zero]
                simpa using hv
              rcases ih _ _ hrec with h1 | h1
              · have htr : dollars tr = dollars m.rest := by rw [h1]
                omega
              · omega

/-- Under dollar-free providers the cycle-cache loop halts: fuel two beyond
the dollar count of the working string is always enough. -/
theorem loop_terminates (st : ResolveState) (hdf : DollarFree st) (inp : List Char) :
    ∀ d n cache ret, dollars ret ≤ d → d + 2 ≤ n →
      (resolveLoop st inp n cache ret).isSome = true := by
  intro d
  induction d with
  | zero =>
    intro n cache ret hd hn
    obtain ⟨n1, rfl⟩ : ∃ n1, n = n1 + 1 := ⟨n - 1, by omega⟩
    simp only [resolveLoop]
    by_cases hc : ret ∈ cache
    · simp [hc]
    · rw [if_neg hc]
      cases hp : replacePass st inp ret with
      | error e => simp
      | ok r2 =>
        rcases pass_dollar st hdf inp ret.length ret r2 hp with h1 | h1
        · subst h1
          obtain ⟨n2, rfl⟩ : ∃ n2, n1 = n2 + 1 := ⟨n1 - 1, by omega⟩
          simp [resolveLoop]
        · exact absurd h1 (by omega)
  | succ d ih =>
    intro n cache ret hd hn
    obtain ⟨n1, rfl⟩ : ∃ n1, n = n1 + 1 := ⟨n - 1, by omega⟩
    simp only [resolveLoop]
    by_cases hc : ret ∈ cache
    · simp [hc]
    · rw [if_neg hc]
      cases hp : replacePass st inp ret with
      | error e => simp
      | ok r2 =>
        rcases pass_dollar st hdf inp ret.length ret r2 hp with h1 | h1
        · subst h1
          obtain ⟨n2, rfl⟩ : ∃ n2, n1 = n2 + 1 := ⟨n1 - 1, by omega⟩
          simp [resolveLoop]
        · exact ih n1 (ret :: cache) r2 (by omega) (by omega)

/-- A string unchanged by one pass leaves the loop within two iterations. -/
theorem loop_fix (st : ResolveState) (inp ret : List Char)
    (h : replacePass st inp ret = Except.ok ret) :
    ∀ k cache, ret ∉ cache → resolveLoop st inp (k + 2) cache ret = some (Except.ok ret) := by
  intro k cache hc
  simp only [resolveLoop]
  rw [if_neg hc, h]
  simp [resolveLoop]

/-- A non-empty input unchanged by one pass resolves to its home-substituted
self at any fuel of at least two. -/
theorem resolve_of_passfix (st : ResolveState) (s : List Char) (hs : s ≠ [])
    (h : replacePass st s s = Except.ok s) (k : Nat) :
    resolveVariables st (some s) (k + 2) = some (Except.ok (homeSub st s)) := by
  simp only [resolveVariables, if_neg hs]
  rw [loop_fix st s s h k [] (by simp)]

/-- homeSub leaves a string alone unless its first character is a tilde. -/
theorem homeSub_not_tilde (st : ResolveState) (s : List Char)
    (h : s.head? ≠ some '~') : homeSub st s = s := by
  cases s with
  | nil => rfl
  | cons c r =>
    have hc : c ≠ '~' := by
      intro he
      exact h (by rw [he]; rfl)
    simp [homeSub, hc]

/-- No match starts at a letter x. -/
theorem tryMatchAt_x (r : List Char) : tryMatchAt ('x' :: r) = none := by
  cases r with
  | nil => rfl
  | cons c2 t =>
    simp only [tryMatchAt]
    rw [if_neg]
    rintro ⟨h1, -⟩
    exact absurd h1 (by decide)

/-- Length of the k-th diverging string. -/
theorem iterS_len (k : Nat) : (iterS k).length = k + 8 := by
  simp [iterS, sEnvA]

/-- Each pass over the k-th diverging string yields the next one. -/
theorem grow_pass_iter : ∀ k, replacePass stGrow sEnvA (iterS k) = Except.ok (iterS (k + 1)) := by
  intro k
  induction k with
  | zero => decide
  | succ k ih =>
    have hcons : iterS (k + 1) = 'x' :: iterS k := by
      simp [iterS, List.replicate_succ]
    have hcons2 : iterS (k + 2) = 'x' :: iterS (k + 1) := by
      simp [iterS, List.replicate_succ]
    unfold replacePass
    rw [hcons]
    simp only [List.length_cons, replaceAux, tryMatchAt_x]
    rw [show replaceAux stGrow sEnvA (iterS k).length (iterS k) = Except.ok (iterS (k + 1)) from ih]
    rw [hcons2]

/-- Against the self-growing overlay, the loop never halts: every string of
the run is longer than everything in the cache, so the cache is never hit. -/
theorem grow_loop : ∀ n k cache, (∀ c ∈ cache, c.length < (iterS k).length) →
    resolveLoop stGrow sEnvA n cache (iterS k) = none := by
  intro n
  induction n with
  | zero => intro k cache _; rfl
  | succ n ih =>
    intro k cache h
    have hnot : iterS k ∉ cache := fun hm => absurd (h _ hm) (lt_irrefl _)
    simp only [resolveLoop]
    rw [if_neg hnot, grow_pass_iter k]
    show resolveLoop stGrow sEnvA n (iterS k :: cache) (iterS (k + 1)) = none
    refine ih (k + 1) (iterS k :: cache) ?_
    intro c hc
    rcases List.mem_cons.mp hc with rfl | hc2
    · rw [iterS_len, iterS_len]
      omega
    · have hcl := h c hc2
      rw [iterS_len] at hcl ⊢
      omega

/-- One pass leaves the dollar-brace file brace input unchanged whenever
workspaceFolders is undefined, at any positive fuel. -/
theorem pass_fileS_aux (st : ResolveState) (inp : List Char)
    (h : st.workspaceFolders = none) (n : Nat) :
    replaceAux st inp (n + 1) fileS = Except.ok fileS := by
  have htm : tryMatchAt ('$' :: '\x7b' :: 'f' :: 'i' :: 'l' :: 'e' :: '\x7d' :: []) =
      some (PMatch.mk none ['f', 'i', 'l', 'e'] fileS []) := rfl
  have hlv : lookupValue st inp (PMatch.mk none ['f', 'i', 'l', 'e'] fileS []) =
      Except.ok none := by
    simp [lookupValue, lookupFolder, h]
  have hrm : resolveMatch st inp (PMatch.mk none ['f', 'i', 'l', 'e'] fileS []) =
      Except.ok fileS := by
    simp [resolveMatch, hlv]
  show replaceAux st inp (n + 1) ('$' :: '\x7b' :: 'f' :: 'i' :: 'l' :: 'e' :: '\x7d' :: []) =
      Except.ok fileS
  simp only [replaceAux, htm, hrm, replaceAux_nil]
  simp

/-- The whole pass over the file placeholder with undefined workspaceFolders. -/
theorem pass_fileS (st : ResolveState) (inp : List Char) (h : st.workspaceFolders = none) :
    replacePass st inp fileS = Except.ok fileS :=
  pass_fileS_aux st inp h 6

/-- C10: for absent input and for the empty input, resolveVariables returns
the empty string immediately, at every state and every fuel (even zero, so
no expansion pass and no home substitution is performed). -/
theorem c10_empty_input :
    (∀ (st : ResolveState) (fuel : Nat), resolveVariables st none fuel = some (Except.ok [])) ∧
    (∀ (st : ResolveState) (fuel : Nat), resolveVariables st (some []) fuel = some (Except.ok [])) :=
  ⟨fun _ _ => rfl, fun _ _ => rfl⟩

/-- C2: the fatal default branch of the dispatch is reachable from a
grammar-producible input: resolving the kind-qualified file placeholder
halts with the assert failure instead of completing with a string. -/
theorem c2_fatal_reachable :
    resolveVariables st0 (some fileColonS) 3 = some (Except.error Fail.assertFail) := by
  decide

/-- C1 (counterexample): with one workspace root, resolving the plain file
placeholder does not preserve it; it falls through to the workspaceFolder
handling and yields the root path. -/
theorem c1_counterexample :
    resolveVariables stProj (some fileS) 3 = some (Except.ok ['/', 'a']) ∧
    (['/', 'a'] : List Char) ≠ fileS := ⟨by decide, by decide⟩

/-- C1 (amended): the plain file placeholder carries no kind token (a kind
needs a separator), so it is an unqualified reference handled as
workspaceFolder: it is preserved exactly when workspaceFolders is
undefined.  A kind-qualified file reference is never left unresolved: it
reaches the dispatch default and fails fatally, at every state. -/
theorem c1_file_kind_amended :
    (∀ (st : ResolveState) (k : Nat), st.workspaceFolders = none →
        resolveVariables st (some fileS) (k + 2) = some (Except.ok fileS)) ∧
    (∀ (st : ResolveState) (k : Nat),
        resolveVariables st (some fileColonS) (k + 1) = some (Except.error Fail.assertFail)) := by
  constructor
  · intro st k h
    rw [resolve_of_passfix st fileS (by decide) (pass_fileS st fileS h) k]
    rfl
  · intro st k
    have hp : replacePass st fileColonS fileColonS = Except.error Fail.assertFail := rfl
    have hloop : resolveLoop st fileColonS (k + 1) [] fileColonS =
        some (Except.error Fail.assertFail) := by
      simp only [resolveLoop]
      rw [if_neg (by simp), hp]
    show (if fileColonS = [] then some (Except.ok [])
      else
        match resolveLoop st fileColonS (k + 1) [] fileColonS with
        | some (Except.ok r) => some (Except.ok (homeSub st r))
        | some (Except.error e) => some (Except.error e)
        | none => none) = some (Except.error Fail.assertFail)
    rw [if_neg (by decide : ¬(fileColonS = [])), hloop]

/-- Witness for the amended C1 at the empty state. -/
theorem c1_amended_witness :
    st0.workspaceFolders = none ∧
    resolveVariables st0 (some fileS) 2 = some (Except.ok fileS) ∧
    resolveVariables st0 (some fileColonS) 1 = some (Except.error Fail.assertFail) :=
  ⟨rfl, c1_file_kind_amended.1 st0 0 rfl, c1_file_kind_amended.2 st0 0⟩

/-- C8: after the fixed point, a tilde in first position alone is replaced
by the home directory: tilde slash proj resolves to home slash proj while
a tilde in second position is untouched, at every state; and homeSub only
ever rewrites the very first character. -/
theorem c8_home_shorthand :
    (∀ (st : ResolveState) (k : Nat),
        resolveVariables st (some tilProj) (k + 2) =
          some (Except.ok (st.home ++ ['/', 'p', 'r', 'o', 'j']))) ∧
    (∀ (st : ResolveState) (k : Nat),
        resolveVariables st (some aTilProj) (k + 2) = some (Except.ok aTilProj)) ∧
    (∀ (st : ResolveState) (r : List Char), homeSub st ('~' :: r) = st.home ++ r) ∧
    (∀ (st : ResolveState) (s : List Char), s.head? ≠ some '~' → homeSub st s = s) := by
  refine ⟨?_, ?_, ?_, ?_⟩
  · intro st k
    have hp : replacePass st tilProj tilProj = Except.ok tilProj := rfl
    rw [resolve_of_passfix st tilProj (by decide) hp k]
    rfl
  · intro st k
    have hp : replacePass st aTilProj aTilProj = Except.ok aTilProj := rfl
    rw [resolve_of_passfix st aTilProj (by decide) hp k]
    rfl
  · intro st r
    rfl
  · exact fun st s h => homeSub_not_tilde st s h

/-- Witness for C8 at the empty state. -/
theorem c8_witness :
    resolveVariables st0 (some tilProj) 2 = some (Except.ok (st0.home ++ ['/', 'p', 'r', 'o', 'j'])) ∧
    resolveVariables st0 (some aTilProj) 2 = some (Except.ok aTilProj) ∧
    homeSub st0 ['a'] = ['a'] :=
  ⟨c8_home_shorthand.1 st0 0, c8_home_shorthand.2.1 st0 0,
   c8_home_shorthand.2.2.2 st0 ['a'] (by decide)⟩

/-- No fuel makes the diverging call return. -/
theorem grow_never_returns :
    ¬ ∃ n, (resolveVariables stGrow (some sEnvA) n).isSome = true := by
  rintro ⟨n, h⟩
  have h0 : resolveLoop stGrow sEnvA n [] sEnvA = none := by
    have hg := grow_loop n 0 [] (by intro c hc; simp at hc)
    simpa [iterS] using hg
  have hnone : resolveVariables stGrow (some sEnvA) n = none := by
    show (if sEnvA = [] then some (Except.ok [])
      else
        match resolveLoop stGrow sEnvA n [] sEnvA with
        | some (Except.ok r) => some (Except.ok (homeSub stGrow r))
        | some (Except.error e) => some (Except.error e)
        | none => none) = none
    rw [if_neg (by decide : ¬(sEnvA = [])), h0]
  rw [hnone] at h
  simp at h

/-- C3 (counterexample): with an overlay mapping A to a value that contains
the env A placeholder behind one extra character, the expansion loop never
reaches an already-seen string: there is no fuel at which the call
returns, so the source loop spins forever on this state and input. -/
theorem c3_counterexample :
    (∃ n, (resolveVariables stGrow (some sEnvA) n).isSome = true) = False :=
  eq_false grow_never_returns

/-- C3 (amended): when no overlay or provider value contains a dollar sign,
the loop always terminates: fuel two beyond the dollar count of the input
suffices, and the call returns a result or a fatal failure. -/
theorem c3_termination_amended (st : ResolveState) (s : List Char) (fuel : Nat)
    (hdf : DollarFree st) (hfuel : dollars s + 2 ≤ fuel) :
    (resolveVariables st (some s) fuel).isSome = true := by
  by_cases hs : s = []
  · subst hs
    rfl
  · have hloop := loop_terminates st hdf s (dollars s) fuel [] s le_rfl hfuel
    show (Option.isSome (if s = [] then some (Except.ok [])
      else
        match resolveLoop st s fuel [] s with
        | some (Except.ok r) => some (Except.ok (homeSub st r))
        | some (Except.error e) => some (Except.error e)
        | none => none)) = true
    rw [if_neg hs]
    cases hl : resolveLoop st s fuel [] s with
    | none =>
      rw [hl] at hloop
      exact absurd hloop (by simp)
    | some e =>
      cases e with
      | ok r => simp [hl]
      | error e2 => simp [hl]

/-- Witness for the amended C3 at the empty state on a one-letter input. -/
theorem c3_amended_witness :
    DollarFree st0 ∧ dollars ['a'] + 2 ≤ 2 ∧
    (resolveVariables st0 (some ['a']) 2).isSome = true := by
  have hdf : DollarFree st0 := by
    refine ⟨?_, ?_, ?_, ?_, ?_⟩
    · intro n v h
      simp [overlayFind, st0] at h
    · intro n vs h
      simp [overlayFind, st0] at h
    · intro n v h
      simp [st0] at h
    · intro n v h
      simp [st0] at h
    · intro l h
      simp [st0] at h
  exact ⟨hdf, by decide, c3_termination_amended st0 ['a'] 2 hdf (by decide)⟩

/-- C9 (counterexample): an input that converges without regenerating its
own pattern but resolves to a lone env placeholder whose overlay value is
an array: resolving the output again joins the array, so resolve of
resolve differs from resolve. -/
theorem c9_counterexample :
    resolveVariables stChain (some sEnvA) 5 = some (Except.ok sEnvB) ∧
    resolveVariables stChain (some sEnvB) 5 = some (Except.ok ['x', ':', 'y']) ∧
    (['x', ':', 'y'] : List Char) ≠ sEnvB := ⟨by decide, by decide, by decide⟩

/-- C9 (amended): resolving the output of resolve again yields the same
string whenever one expansion pass (taken with that output as the whole
original input) leaves it unchanged and it does not begin with a tilde. -/
theorem c9_idempotent_amended (st : ResolveState) (s t : List Char) (fuel : Nat)
    (h1 : resolveVariables st (some s) fuel = some (Except.ok t))
    (h2 : replacePass st t t = Except.ok t)
    (h3 : t.head? ≠ some '~') (k : Nat) :
    resolveVariables st (some t) (k + 2) = some (Except.ok t) := by
  by_cases ht : t = []
  · subst ht
    rfl
  · rw [resolve_of_passfix st t ht h2 k, homeSub_not_tilde st t h3]

/-- Witness for the amended C9: the tilde input resolves to slash proj,
which resolves to itself again. -/
theorem c9_amended_witness :
    resolveVariables st0 (some tilProj) 2 = some (Except.ok ['/', 'p', 'r', 'o', 'j']) ∧
    replacePass st0 ['/', 'p', 'r', 'o', 'j'] ['/', 'p', 'r', 'o', 'j'] =
      Except.ok ['/', 'p', 'r', 'o', 'j'] ∧
    (['/', 'p', 'r', 'o', 'j'] : List Char).head? ≠ some '~' ∧
    resolveVariables st0 (some ['/', 'p', 'r', 'o', 'j']) 2 =
      some (Except.ok ['/', 'p', 'r', 'o', 'j']) :=
  ⟨by decide, by decide, by decide,
   c9_idempotent_amended st0 tilProj ['/', 'p', 'r', 'o', 'j'] 2
     (by decide) (by decide) (by decide) 0⟩

/-- C4: env resolution order: an overlay string is used unconditionally; an
overlay sequence is joined with the platform delimiter exactly when the raw
match is the whole original input; an embedded reference falls back to the
process environment; the delimiter is a semicolon on Windows and a colon
elsewhere; end to end, the standalone env P placeholder joins while the
embedded one is preserved. -/
theorem c4_env_resolution :
    (∀ (st : ResolveState) (inp raw n v : List Char),
        overlayFind st n = some (EnvVal.str v) → lookupEnv st inp raw n = some v) ∧
    (∀ (st : ResolveState) (raw n : List Char) (vs : List (List Char)),
        overlayFind st n = some (EnvVal.arr vs) →
        lookupEnv st raw raw n = some (joinWith (envDelimiter st.isWindows) vs)) ∧
    (∀ (st : ResolveState) (inp raw n : List Char) (vs : List (List Char)),
        overlayFind st n = some (EnvVal.arr vs) → inp ≠ raw →
        lookupEnv st inp raw n = st.procEnv n) ∧
    envDelimiter true = ';' ∧ envDelimiter false = ':' ∧
    resolveVariables stOv (some ['$', '\x7b', 'e', 'n', 'v', ':', 'P', '\x7d']) 5 =
      some (Except.ok ['a', ':', 'b']) ∧
    resolveVariables stOv (some ['x', '=', '$', '\x7b', 'e', 'n', 'v', ':', 'P', '\x7d']) 5 =
      some (Except.ok ['x', '=', '$', '\x7b', 'e', 'n', 'v', ':', 'P', '\x7d']) ∧
    resolveVariables stOv (some ['$', '\x7b', 'e', 'n', 'v', ':', 'X', '\x7d']) 5 =
      some (Except.ok ['5']) := by
  refine ⟨?_, ?_, ?_, rfl, rfl, by decide, by decide, by decide⟩
  · intro st inp raw n v h
    simp [lookupEnv, h]
  · intro st raw n vs h
    simp [lookupEnv, h]
  · intro st inp raw n vs h hne
    simp [lookupEnv, h, hne]

/-- Witness for C4 on the concrete overlay. -/
theorem c4_env_witness :
    overlayFind stOv ['X'] = some (EnvVal.str ['5']) ∧
    lookupEnv stOv [] [] ['X'] = some ['5'] ∧
    overlayFind stOv ['P'] = some (EnvVal.arr [['a'], ['b']]) ∧
    lookupEnv stOv sEnvA sEnvA ['P'] = some (joinWith (envDelimiter stOv.isWindows) [['a'], ['b']]) ∧
    (['q'] : List Char) ≠ sEnvA ∧
    lookupEnv stOv ['q'] sEnvA ['P'] = stOv.procEnv ['P'] :=
  ⟨by decide, c4_env_resolution.1 stOv [] [] ['X'] ['5'] (by decide), by decide,
   c4_env_resolution.2.1 stOv sEnvA ['P'] [['a'], ['b']] (by decide), by decide,
   c4_env_resolution.2.2.1 stOv ['q'] sEnvA ['P'] [['a'], ['b']] (by decide) (by decide)⟩

/-- C5: an unqualified reference is dispatched exactly as workspaceFolder
(never env); a non-empty name matching a root case-insensitively takes that
root path, a non-empty non-matching name takes the first root path,
undefined workspaceFolders leaves the reference unresolved; end to end on
the three spec examples. -/
theorem c5_workspaceFolder_resolution :
    (∀ (st : ResolveState) (inp n raw rest : List Char),
        resolveMatch st inp (PMatch.mk none n raw rest) =
          resolveMatch st inp (PMatch.mk (some VarType.workspaceFolder) n raw rest)) ∧
    (∀ (st : ResolveState) (n : List Char) (l : List (List Char × List Char))
        (f : List Char × List Char),
        st.workspaceFolders = some l → n ≠ [] →
        l.find? (fun g => lowerEq g.1 n) = some f →
        lookupFolder st n = Except.ok (some f.2)) ∧
    (∀ (st : ResolveState) (n : List Char) (f : List Char × List Char)
        (t : List (List Char × List Char)),
        st.workspaceFolders = some (f :: t) → n ≠ [] →
        (f :: t).find? (fun g => lowerEq g.1 n) = none →
        lookupFolder st n = Except.ok (some f.2)) ∧
    (∀ (st : ResolveState) (n : List Char),
        st.workspaceFolders = none → lookupFolder st n = Except.ok none) ∧
    resolveVariables stFooBar (some unqFoo) 3 = some (Except.ok ['/', 'a']) ∧
    resolveVariables stBar (some unqFoo) 3 = some (Except.ok ['/', 'b']) ∧
    resolveVariables st0 (some unqFoo) 3 = some (Except.ok unqFoo) := by
  refine ⟨?_, ?_, ?_, ?_, by decide, by decide, by decide⟩
  · intro st inp n raw rest
    rfl
  · intro st n l f hws hn hf
    simp [lookupFolder, hws, hn, hf]
  · intro st n f t hws hn hf
    simp [lookupFolder, hws, hn, hf]
  · intro st n hws
    by_cases hn : n = [] <;> simp [lookupFolder, hws, hn]

/-- Witness for C5 on the concrete root lists. -/
theorem c5_witness :
    stFooBar.workspaceFolders =
      some [(['f', 'o', 'o'], ['/', 'a']), (['b', 'a', 'r'], ['/', 'b'])] ∧
    (['f', 'o', 'o'] : List Char) ≠ [] ∧
    [(['f', 'o', 'o'], ['/', 'a']), (['b', 'a', 'r'], ['/', 'b'])].find?
      (fun g => lowerEq g.1 ['f', 'o', 'o']) = some (['f', 'o', 'o'], ['/', 'a']) ∧
    lookupFolder stFooBar ['f', 'o', 'o'] = Except.ok (some ['/', 'a']) ∧
    [(['b', 'a', 'r'], ['/', 'b'])].find? (fun g => lowerEq g.1 ['f', 'o', 'o']) = none ∧
    lookupFolder stBar ['f', 'o', 'o'] = Except.ok (some ['/', 'b']) ∧
    lookupFolder st0 ['f', 'o', 'o'] = Except.ok none :=
  ⟨rfl, by decide, by decide,
   c5_workspaceFolder_resolution.2.1 stFooBar ['f', 'o', 'o']
     [(['f', 'o', 'o'], ['/', 'a']), (['b', 'a', 'r'], ['/', 'b'])]
     (['f', 'o', 'o'], ['/', 'a']) rfl (by decide) (by decide),
   by decide,
   c5_workspaceFolder_resolution.2.2.1 stBar ['f', 'o', 'o']
     (['b', 'a', 'r'], ['/', 'b']) [] rfl (by decide) (by decide),
   c5_workspaceFolder_resolution.2.2.2.1 st0 ['f', 'o', 'o'] rfl⟩

/-- C6: with a present but empty root list, a workspaceFolder reference
with a non-empty name takes the first element of the empty list and fails
with the TypeError instead of staying unresolved; with a non-empty present
list or an undefined list the step never fails; end to end the empty-list
state crashes the whole call. -/
theorem c6_empty_roots_crash :
    (∀ (st : ResolveState) (n : List Char),
        st.workspaceFolders = some [] → n ≠ [] →
        lookupFolder st n = Except.error Fail.typeError) ∧
    (∀ (st : ResolveState) (n : List Char) (f : List Char × List Char)
        (t : List (List Char × List Char)),
        st.workspaceFolders = some (f :: t) → ∃ o, lookupFolder st n = Except.ok o) ∧
    (∀ (st : ResolveState) (n : List Char),
        st.workspaceFolders = none → ∃ o, lookupFolder st n = Except.ok o) ∧
    resolveVariables stEmptyRoots (some unqA) 3 = some (Except.error Fail.typeError) := by
  refine ⟨?_, ?_, ?_, by decide⟩
  · intro st n hws hn
    simp [lookupFolder, hws, hn]
  · intro st n f t hws
    by_cases hn : n = []
    · exact ⟨none, by simp [lookupFolder, hn]⟩
    · cases hf : (f :: t).find? (fun g => lowerEq g.1 n) with
      | some g => exact ⟨some g.2, by simp [lookupFolder, hws, hn, hf]⟩
      | none => exact ⟨some f.2, by simp [lookupFolder, hws, hn, hf]⟩
  · intro st n hws
    by_cases hn : n = []
    · exact ⟨none, by simp [lookupFolder, hn]⟩
    · exact ⟨none, by simp [lookupFolder, hws, hn]⟩

/-- Witness for C6 on the concrete states. -/
theorem c6_witness :
    stEmptyRoots.workspaceFolders = some [] ∧ (['a'] : List Char) ≠ [] ∧
    lookupFolder stEmptyRoots ['a'] = Except.error Fail.typeError ∧
    (∃ o, lookupFolder stProj ['a'] = Except.ok o) ∧
    (∃ o, lookupFolder st0 ['a'] = Except.ok o) :=
  ⟨rfl, by decide, c6_empty_roots_crash.1 stEmptyRoots ['a'] rfl (by decide),
   c6_empty_roots_crash.2.1 stProj ['a'] (['p', 'r', 'o', 'j'], ['/', 'a']) [] rfl,
   c6_empty_roots_crash.2.2.1 st0 ['a'] rfl⟩

/-- C7: a placeholder whose per-kind lookup yields no value is replaced by
its own raw match text, and a pass all of whose placeholders are
unresolved returns its input unchanged with no failure. -/
theorem c7_unresolved_preserved :
    (∀ (st : ResolveState) (inp : List Char) (m : PMatch),
        lookupValue st inp m = Except.ok none → resolveMatch st inp m = Except.ok m.raw) ∧
    (∀ (st : ResolveState) (inp s : List Char),
        allUnresolved st inp s = true → replacePass st inp s = Except.ok s) := by
  constructor
  · intro st inp m h
    simp [resolveMatch, h]
  · intro st inp s h
    exact allUnres_pass st inp s.length s h

/-- Witness for C7 on an unresolvable config placeholder. -/
theorem c7_witness :
    lookupValue st0 [] (PMatch.mk (some VarType.config) ['k'] ['r'] []) = Except.ok none ∧
    resolveMatch st0 [] (PMatch.mk (some VarType.config) ['k'] ['r'] []) = Except.ok ['r'] ∧
    allUnresolved st0 ['a', '$', '\x7b', 'c', 'o', 'n', 'f', 'i', 'g', ':', 'k', '\x7d']
      ['a', '$', '\x7b', 'c', 'o', 'n', 'f', 'i', 'g', ':', 'k', '\x7d'] = true ∧
    replacePass st0 ['a', '$', '\x7b', 'c', 'o', 'n', 'f', 'i', 'g', ':', 'k', '\x7d']
      ['a', '$', '\x7b', 'c', 'o', 'n', 'f', 'i', 'g', ':', 'k', '\x7d'] =
      Except.ok ['a', '$', '\x7b', 'c', 'o', 'n', 'f', 'i', 'g', ':', 'k', '\x7d'] :=
  ⟨by decide, c7_unresolved_preserved.1 st0 [] (PMatch.mk (some VarType.config) ['k'] ['r'] []) (by decide),
   by decide,
   c7_unresolved_preserved.2 st0
     ['a', '$', '\x7b', 'c', 'o', 'n', 'f', 'i', 'g', ':', 'k', '\x7d']
     ['a', '$', '\x7b', 'c', 'o', 'n', 'f', 'i', 'g', ':', 'k', '\x7d'] (by decide)⟩
